import Mathlib

/-!
Verification of surrogate_models/corrupt_models.py.

The script loads a deployed model, generates one Gaussian noise tensor per
parameter (standard deviation equal to the parameter's sample standard
deviation), and over 12 steps cumulatively adds scaled noise to the
parameters, saving a snapshot after each step.

The embedding works over exact reals in place of IEEE floats; the pseudo-random
stream produced by the globally seeded generator is an explicit function
parameter, applied to the seed, which models that after a manual seed the
sequence of standard-normal draws is a deterministic function of the seed.
-/

namespace CorruptModels

open scoped Classical

/-- np.logspace start stop num, entry k: 10 raised to
(start + k * (stop - start) / (num - 1)). -/
noncomputable def logspace (start stop : ℝ) (num : ℕ) (k : ℕ) : ℝ :=
  (10 : ℝ) ^ (start + (k : ℝ) * ((stop - start) / ((num : ℝ) - 1)))

/-- corrpution_facs = np.logspace(-4.3, -0.3, 12) (entry k, for k < 12). -/
noncomputable def corrpution_facs (k : ℕ) : ℝ :=
  logspace (-4.3) (-0.3) 12 k

/-- The factor array as a list of its 12 entries, mirroring the numpy array. -/
noncomputable def corrpution_facs_list : List ℝ :=
  (List.range 12).map corrpution_facs

/-- cdiff = np.diff(corrpution_facs): successive differences, entry j for j < 11. -/
noncomputable def cdiff (j : ℕ) : ℝ :=
  corrpution_facs (j + 1) - corrpution_facs j

/-- The incremental factor used at loop step i:
corrpution_facs[0] for i = 0, cdiff[i-1] otherwise. -/
noncomputable def add_fac (i : ℕ) : ℝ :=
  if i = 0 then corrpution_facs 0 else cdiff (i - 1)

/-- A parameter tensor: a shape and a flat buffer of entries. -/
structure Tensor where
  shape : List ℕ
  data : List ℝ

/-- Default tensor used with List.getD. -/
def dTensor : Tensor := ⟨[], []⟩

/-- Number of elements of a tensor, the product of its shape. -/
def numel (t : Tensor) : ℕ := t.shape.prod

/-- A model: the ordered list of its parameter tensors. -/
structure Model where
  params : List Tensor

/-- torch.mean of a flat buffer. -/
noncomputable def torch_mean (xs : List ℝ) : ℝ := xs.sum / (xs.length : ℝ)

/-- torch.var with the default unbiased estimator (Bessel correction). -/
noncomputable def torch_var (xs : List ℝ) : ℝ :=
  ((xs.map fun x => (x - torch_mean xs) ^ 2).sum) / ((xs.length : ℝ) - 1)

/-- torch.std: square root of the unbiased sample variance. -/
noncomputable def torch_std (xs : List ℝ) : ℝ := Real.sqrt (torch_var xs)

/-- torch.normal(mean, std, shape) drawing from the seeded stream gen starting
at offset off: entry j is mean + std * gen (off + j). -/
noncomputable def torch_normal (gen : ℕ → ℝ) (off : ℕ) (mean std : ℝ)
    (shape : List ℕ) : Tensor :=
  ⟨shape, (List.range shape.prod).map fun j => mean + std * gen (off + j)⟩

/-- The noise-generation pass over the parameter list: one tensor per
parameter, in order, each drawn with that parameter's sample standard
deviation, consuming the stream left to right. -/
noncomputable def noise_from (gen : ℕ → ℝ) : ℕ → List Tensor → List Tensor
  | _, [] => []
  | off, p :: ps =>
      torch_normal gen off 0 (torch_std p.data) p.shape ::
        noise_from gen (off + p.shape.prod) ps

/-- noise_arrs: the noise tensors generated once, immediately after load. -/
noncomputable def noise_arrs (gen : ℕ → ℝ) (m : Model) : List Tensor :=
  noise_from gen 0 m.params

/-- One pass of param.data = param + c * noise over all parameters. -/
noncomputable def addScaled (ps : List Tensor) (c : ℝ) (ns : List Tensor) :
    List Tensor :=
  List.zipWith
    (fun p n => ⟨p.shape, List.zipWith (fun x y => x + c * y) p.data n.data⟩)
    ps ns

/-- The parameter state after loop iteration i (0-based): iteration i adds
add_fac i times each noise tensor to the corresponding parameter. -/
noncomputable def paramsAfter (gen : ℕ → ℝ) (m : Model) : ℕ → List Tensor
  | 0 => addScaled m.params (add_fac 0) (noise_arrs gen m)
  | i + 1 => addScaled (paramsAfter gen m i) (add_fac (i + 1)) (noise_arrs gen m)

/-- An output file name corruptfac_{factor}_{idx}.pth, kept structurally as the
embedded factor value and step index. -/
structure FileName where
  factor : ℝ
  idx : ℕ

/-- Default file name used with List.getD. -/
def dFileName : FileName := ⟨0, 0⟩

/-- The file name written at loop step i. -/
noncomputable def cfac_file (i : ℕ) : FileName := ⟨corrpution_facs i, i⟩

/-- Python modelname.split(".")[0]: the portion of the name before the first
dot (the whole name when no dot occurs). -/
def split_first (s : String) (sep : Char) : String :=
  String.mk (s.toList.takeWhile fun c => c ≠ sep)

/-- The output directory name derived from the model file name and the seed. -/
def corrupted_model_dir (modelname : String) (seed : ℤ) : String :=
  split_first modelname '.' ++ "_corrupted_SEED_" ++ toString seed

/-- One loop iteration's effect on the output directory contents: if the file
already exists it is removed (os.remove), then the save creates it. -/
noncomputable def saveStep (contents : List FileName) (i : ℕ) : List FileName :=
  let f := cfac_file i
  (if f ∈ contents then contents.erase f else contents) ++ [f]

/-- Directory contents after the first i loop iterations, starting from the
freshly created empty directory. -/
noncomputable def dirAfter : ℕ → List FileName
  | 0 => []
  | i + 1 => saveStep (dirAfter i) i

/-- The directory preparation: whether or not a directory of the target name
already exists (prior = some old contents), it is removed recursively, and
mkdir leaves it empty. -/
def prepDir (prior : Option (List FileName)) : List FileName :=
  match prior with
  | some _ => []
  | none => []

/-- Directory contents at the end of a run, for any prior contents. -/
noncomputable def finalDirContents (prior : Option (List FileName)) :
    List FileName :=
  (List.range 12).foldl saveStep (prepDir prior)

/-- The metadata dictionary loaded with the model, treated as opaque
key-value data. -/
def Metadata := List (String × String)

/-- One saved snapshot: file name, full parameter state, attached metadata. -/
structure Snapshot where
  fname : FileName
  params : List Tensor
  metadata : Metadata

/-- Default snapshot used with List.getD. -/
def dSnapshot : Snapshot := ⟨dFileName, [], []⟩

/-- The whole run as a function of the library's seeded stream (torchGen seed
is the standard-normal stream after torch.manual_seed(seed)), the seed, the
model name and the loaded model and metadata: the output directory name and
the 12 snapshots saved, in order. -/
noncomputable def run (torchGen : ℤ → ℕ → ℝ) (seed : ℤ) (modelname : String)
    (m : Model) (md : Metadata) : String × List Snapshot :=
  (corrupted_model_dir modelname seed,
    (List.range 12).map fun i =>
      ⟨cfac_file i, paramsAfter (torchGen seed) m i, md⟩)

/-- A loaded model is well formed when every parameter's buffer has exactly as
many entries as the product of its shape, as torch tensors do. -/
def Model.WF (m : Model) : Prop := ∀ t ∈ m.params, t.data.length = numel t

/-- Example pseudo-random stream for concrete instantiations. -/
def gex : ℕ → ℝ := fun n => (n : ℝ) + 1

/-- Example seeded-stream family for concrete instantiations. -/
def tgex : ℤ → ℕ → ℝ := fun _ n => (n : ℝ) + 1

/-- Example model with a single 2-element parameter. -/
def Mex : Model := ⟨[⟨[2], [1, 3]⟩]⟩

/-- Example model whose single parameter is constant. -/
def Mc : Model := ⟨[⟨[2], [5, 5]⟩]⟩

/-- Example metadata dictionary. -/
def mdex : Metadata := [("config", "yaml")]

lemma corrpution_facs_lt {i j : ℕ} (h : i < j) :
    corrpution_facs i < corrpution_facs j := by
  unfold corrpution_facs logspace
  rw [Real.rpow_lt_rpow_left_iff (by norm_num : (1 : ℝ) < 10)]
  have hij : (i : ℝ) < j := by exact_mod_cast h
  have hstep : ((-0.3 : ℝ) - -4.3) / (((12 : ℕ) : ℝ) - 1) = 4 / 11 := by norm_num
  rw [hstep]
  nlinarith [hij]

lemma corrpution_facs_pos (k : ℕ) : 0 < corrpution_facs k :=
  Real.rpow_pos_of_pos (by norm_num) _

lemma corrpution_facs_zero : corrpution_facs 0 = (10 : ℝ) ^ (-4.3 : ℝ) := by
  unfold corrpution_facs logspace
  norm_num

lemma corrpution_facs_eleven : corrpution_facs 11 = (10 : ℝ) ^ (-0.3 : ℝ) := by
  unfold corrpution_facs logspace
  norm_num

lemma sum_add_fac (i : ℕ) :
    ∑ j in Finset.range (i + 1), add_fac j = corrpution_facs i := by
  induction i with
  | zero => simp [add_fac]
  | succ n ih =>
      rw [Finset.sum_range_succ, ih]
      have h : add_fac (n + 1) = cdiff n := by simp [add_fac]
      rw [h, cdiff]
      ring

lemma zipWith_zipWith_same {α β γ δ : Type _} (f : α → β → γ) (g : γ → β → δ) :
    ∀ (as : List α) (bs : List β),
      List.zipWith g (List.zipWith f as bs) bs =
        List.zipWith (fun a b => g (f a b) b) as bs
  | [], _ => by simp
  | _ :: _, [] => by simp
  | a :: as, b :: bs => by
      simp only [List.zipWith_cons_cons]
      rw [zipWith_zipWith_same f g as bs]

lemma addScaled_addScaled (ps ns : List Tensor) (a b : ℝ) :
    addScaled (addScaled ps a ns) b ns = addScaled ps (a + b) ns := by
  unfold addScaled
  rw [zipWith_zipWith_same]
  have hfun : (fun (x y : ℝ) => x + a * y + b * y) =
      fun (x y : ℝ) => x + (a + b) * y := by
    funext x y
    ring
  simp only [zipWith_zipWith_same, hfun]

lemma paramsAfter_sum (gen : ℕ → ℝ) (m : Model) :
    ∀ i, paramsAfter gen m i =
      addScaled m.params (∑ j in Finset.range (i + 1), add_fac j)
        (noise_arrs gen m) := by
  intro i
  induction i with
  | zero => simp [paramsAfter]
  | succ n ih =>
      rw [paramsAfter, ih, addScaled_addScaled, ← Finset.sum_range_succ]

lemma paramsAfter_facs (gen : ℕ → ℝ) (m : Model) (i : ℕ) :
    paramsAfter gen m i =
      addScaled m.params (corrpution_facs i) (noise_arrs gen m) := by
  rw [paramsAfter_sum, sum_add_fac]

lemma noise_from_length (gen : ℕ → ℝ) :
    ∀ (ps : List Tensor) (off : ℕ), (noise_from gen off ps).length = ps.length
  | [], _ => rfl
  | p :: ps, off => by
      simp only [noise_from, List.length_cons]
      rw [noise_from_length gen ps]

lemma noise_arrs_length (gen : ℕ → ℝ) (m : Model) :
    (noise_arrs gen m).length = m.params.length :=
  noise_from_length gen m.params 0

lemma noise_from_getD (gen : ℕ → ℝ) :
    ∀ (ps : List Tensor) (off ct : ℕ), ct < ps.length →
      (noise_from gen off ps).getD ct dTensor =
        torch_normal gen (off + ((ps.take ct).map numel).sum) 0
          (torch_std (ps.getD ct dTensor).data) (ps.getD ct dTensor).shape
  | [], _, ct, h => absurd h (by simp)
  | p :: ps, off, 0, _ => by simp [noise_from, numel]
  | p :: ps, off, ct + 1, h => by
      have hct : ct < ps.length := by
        simpa using Nat.lt_of_succ_lt_succ h
      simp only [noise_from, List.getD_cons_succ, List.take_succ_cons,
        List.map_cons, List.sum_cons]
      rw [noise_from_getD gen ps (off + p.shape.prod) ct hct]
      have hoff : off + p.shape.prod + ((ps.take ct).map numel).sum =
          off + (numel p + ((ps.take ct).map numel).sum) := by
        simp [numel]
        ring
      rw [hoff]

lemma noise_arrs_getD (gen : ℕ → ℝ) (m : Model) (ct : ℕ)
    (h : ct < m.params.length) :
    (noise_arrs gen m).getD ct dTensor =
      torch_normal gen (((m.params.take ct).map numel).sum) 0
        (torch_std (m.params.getD ct dTensor).data)
        (m.params.getD ct dTensor).shape := by
  unfold noise_arrs
  rw [noise_from_getD gen m.params 0 ct h]
  simp

lemma getD_zipWith {α β γ : Type _} (f : α → β → γ) (as : List α)
    (bs : List β) (i : ℕ) (d₁ : α) (d₂ : β) (d₃ : γ)
    (h₁ : i < as.length) (h₂ : i < bs.length) :
    (List.zipWith f as bs).getD i d₃ = f (as.getD i d₁) (bs.getD i d₂) := by
  have hz : i < (List.zipWith f as bs).length := by
    rw [List.length_zipWith]
    omega
  rw [List.getD_eq_getElem _ _ hz, List.getD_eq_getElem _ _ h₁,
    List.getD_eq_getElem _ _ h₂]
  simp [List.getElem_zipWith]

lemma torch_mean_const (n : ℕ) (c : ℝ) (hn : n ≠ 0) :
    torch_mean (List.replicate n c) = c := by
  unfold torch_mean
  rw [List.sum_replicate, List.length_replicate, nsmul_eq_mul]
  have : (n : ℝ) ≠ 0 := Nat.cast_ne_zero.mpr hn
  field_simp

lemma torch_var_const (n : ℕ) (c : ℝ) (hn : n ≠ 0) :
    torch_var (List.replicate n c) = 0 := by
  unfold torch_var
  rw [torch_mean_const n c hn, List.map_replicate]
  simp

lemma torch_std_const (n : ℕ) (c : ℝ) (hn : n ≠ 0) :
    torch_std (List.replicate n c) = 0 := by
  unfold torch_std
  rw [torch_var_const n c hn, Real.sqrt_zero]

lemma torch_normal_zero_std (gen : ℕ → ℝ) (off : ℕ) (shape : List ℕ) :
    torch_normal gen off 0 0 shape = ⟨shape, List.replicate shape.prod 0⟩ := by
  unfold torch_normal
  simp only [zero_mul, zero_add]
  congr 1
  rw [show (fun (j : ℕ) => (0 : ℝ)) = Function.const ℕ (0 : ℝ) from rfl,
    List.map_const]
  simp

lemma zipWith_noise_zero (c : ℝ) :
    ∀ (xs : List ℝ) (n : ℕ), xs.length ≤ n →
      List.zipWith (fun x y => x + c * y) xs (List.replicate n 0) = xs
  | [], _, _ => by simp
  | x :: xs, 0, h => absurd h (by simp)
  | x :: xs, n + 1, h => by
      simp only [List.replicate_succ, List.zipWith_cons_cons, mul_zero,
        add_zero]
      rw [zipWith_noise_zero c xs n (by simpa using Nat.lt_succ_iff.mp h)]

lemma dirAfter_eq : ∀ i, dirAfter i = (List.range i).map cfac_file := by
  intro i
  induction i with
  | zero => rfl
  | succ n ih =>
      have hnot : cfac_file n ∉ (List.range n).map cfac_file := by
        intro hmem
        rcases List.mem_map.mp hmem with ⟨j, hj, hEq⟩
        have hjn : j = n := congrArg FileName.idx hEq
        have : j < n := List.mem_range.mp hj
        omega
      rw [dirAfter, saveStep, ih]
      simp only [if_neg hnot]
      rw [List.range_succ, List.map_append]
      simp

lemma foldl_saveStep : ∀ n, (List.range n).foldl saveStep [] = dirAfter n := by
  intro n
  induction n with
  | zero => rfl
  | succ k ih =>
      rw [List.range_succ, List.foldl_append, ih]
      rfl

lemma getD_map_range {α : Type _} (f : ℕ → α) (n i : ℕ) (d : α)
    (h : i < n) : ((List.range n).map f).getD i d = f i := by
  have hl : i < ((List.range n).map f).length := by simp [h]
  rw [List.getD_eq_getElem _ _ hl]
  simp

/-- Claim C1: for each step i from 0 to 11, the incremental factor is
corrpution_facs[0] at i = 0 and cdiff[i-1] at i > 0, and after step i the
parameter state equals the original parameters plus corrpution_facs[i] times
the noise tensors (the telescoping sum of increments equals the direct
non-cumulative value). -/
theorem claim_C1 (gen : ℕ → ℝ) (m : Model) (i : ℕ) (_hi : i ≤ 11) :
    add_fac 0 = corrpution_facs 0 ∧
    (∀ j, 0 < j → add_fac j = cdiff (j - 1)) ∧
    paramsAfter gen m i =
      addScaled m.params (corrpution_facs i) (noise_arrs gen m) := by
  refine ⟨by simp [add_fac], ?_, paramsAfter_facs gen m i⟩
  intro j hj
  simp [add_fac, hj.ne']

/-- Witness for claim C1 at step 0 on the example model. -/
theorem claim_C1_witness :
    (0 : ℕ) ≤ 11 ∧
    (add_fac 0 = corrpution_facs 0 ∧
      (∀ j, 0 < j → add_fac j = cdiff (j - 1)) ∧
      paramsAfter gex Mex 0 =
        addScaled Mex.params (corrpution_facs 0) (noise_arrs gex Mex)) :=
  ⟨by norm_num, claim_C1 gex Mex 0 (by norm_num)⟩

/-- Claim C2: for a fixed seeded stream, seed and model, two runs produce
identical noise tensors and identical outputs (the run is a deterministic
function of seed and model). -/
theorem claim_C2 (torchGen : ℤ → ℕ → ℝ) (seed : ℤ) (modelname : String)
    (m : Model) (md : Metadata) (o₁ o₂ : String × List Snapshot)
    (n₁ n₂ : List Tensor)
    (h₁ : o₁ = run torchGen seed modelname m md)
    (h₂ : o₂ = run torchGen seed modelname m md)
    (hn₁ : n₁ = noise_arrs (torchGen seed) m)
    (hn₂ : n₂ = noise_arrs (torchGen seed) m) :
    n₁ = n₂ ∧ o₁ = o₂ := by
  subst h₁
  subst h₂
  subst hn₁
  subst hn₂
  exact ⟨rfl, rfl⟩

/-- Witness for claim C2 on concrete seed, model name and model. -/
theorem claim_C2_witness :
    noise_arrs (tgex 42) Mex = noise_arrs (tgex 42) Mex ∧
    run tgex 42 "model.pth" Mex mdex = run tgex 42 "model.pth" Mex mdex :=
  claim_C2 tgex 42 "model.pth" Mex mdex _ _ _ _ rfl rfl rfl rfl

/-- Claim C3: the corruption-factor sequence has exactly 12 values,
logarithmically spaced from 10^-4.3 to 10^-0.3 inclusive, all positive and
strictly increasing. -/
theorem claim_C3 :
    corrpution_facs_list.length = 12 ∧
    List.Pairwise (· < ·) corrpution_facs_list ∧
    (∀ x ∈ corrpution_facs_list, 0 < x) ∧
    corrpution_facs_list.getD 0 0 = (10 : ℝ) ^ (-4.3 : ℝ) ∧
    corrpution_facs_list.getD 11 0 = (10 : ℝ) ^ (-0.3 : ℝ) := by
  refine ⟨by simp [corrpution_facs_list], ?_, ?_, ?_, ?_⟩
  · unfold corrpution_facs_list
    rw [List.pairwise_map]
    exact (List.pairwise_lt_range 12).imp fun h => corrpution_facs_lt h
  · intro x hx
    rcases List.mem_map.mp hx with ⟨k, _, rfl⟩
    exact corrpution_facs_pos k
  · unfold corrpution_facs_list
    rw [getD_map_range _ _ _ _ (by norm_num)]
    exact corrpution_facs_zero
  · unfold corrpution_facs_list
    rw [getD_map_range _ _ _ _ (by norm_num)]
    exact corrpution_facs_eleven

/-- Witness for claim C3: positivity instantiated at the fourth entry. -/
theorem claim_C3_witness : 0 < corrpution_facs 3 :=
  claim_C3.2.2.1 (corrpution_facs 3)
    (List.mem_map.mpr ⟨3, List.mem_range.mpr (by norm_num), rfl⟩)

/-- Claim C4: a complete run creates exactly 12 output files, the i-th named
with the literal value of the i-th cumulative corruption factor and the
0-based index i, and the embedded factor values are strictly increasing with
the index. -/
theorem claim_C4 (torchGen : ℤ → ℕ → ℝ) (seed : ℤ) (modelname : String)
    (m : Model) (md : Metadata) :
    (run torchGen seed modelname m md).2.length = 12 ∧
    (∀ i, i < 12 →
      ((run torchGen seed modelname m md).2.getD i dSnapshot).fname =
        ⟨corrpution_facs i, i⟩) ∧
    (∀ i j, i < j → j < 12 → corrpution_facs i < corrpution_facs j) := by
  refine ⟨by simp [run], ?_, fun i j hij _ => corrpution_facs_lt hij⟩
  intro i hi
  simp only [run]
  rw [getD_map_range _ _ _ _ hi]
  rfl

/-- Witness for claim C4: the first file name and one factor comparison. -/
theorem claim_C4_witness :
    ((run tgex 1 "m.pth" Mex mdex).2.getD 0 dSnapshot).fname =
      ⟨corrpution_facs 0, 0⟩ ∧
    corrpution_facs 0 < corrpution_facs 5 :=
  ⟨(claim_C4 tgex 1 "m.pth" Mex mdex).2.1 0 (by norm_num),
   (claim_C4 tgex 1 "m.pth" Mex mdex).2.2 0 5 (by norm_num) (by norm_num)⟩

/-- Claim C5: the output directory name is the part of the model file name
before the first dot followed by _corrupted_SEED_ and the seed; whatever was
in a pre-existing directory of that name, after the run the directory holds
exactly the 12 newly written files. -/
theorem claim_C5 (modelname : String) (seed : ℤ) (prior : List FileName) :
    corrupted_model_dir modelname seed =
      split_first modelname '.' ++ "_corrupted_SEED_" ++ toString seed ∧
    finalDirContents (some prior) = (List.range 12).map cfac_file ∧
    finalDirContents none = (List.range 12).map cfac_file ∧
    ((List.range 12).map cfac_file).length = 12 := by
  refine ⟨rfl, ?_, ?_, by simp⟩
  · unfold finalDirContents prepDir
    rw [foldl_saveStep, dirAfter_eq]
  · unfold finalDirContents prepDir
    rw [foldl_saveStep, dirAfter_eq]

/-- Claim C6: every saved snapshot carries exactly the originally loaded
metadata dictionary, unmodified. -/
theorem claim_C6 (torchGen : ℤ → ℕ → ℝ) (seed : ℤ) (modelname : String)
    (m : Model) (md : Metadata) :
    ∀ s ∈ (run torchGen seed modelname m md).2, s.metadata = md := by
  intro s hs
  simp only [run] at hs
  rcases List.mem_map.mp hs with ⟨i, _, rfl⟩
  rfl

/-- Witness for claim C6 on the first snapshot of a concrete run. -/
theorem claim_C6_witness :
    (⟨cfac_file 0, paramsAfter (tgex 7) Mex 0, mdex⟩ : Snapshot).metadata =
      mdex :=
  claim_C6 tgex 7 "model.pth" Mex mdex _
    (List.mem_map.mpr ⟨0, List.mem_range.mpr (by norm_num), rfl⟩)

/-- Claim C7: exactly one noise tensor is generated per parameter, with the
parameter's shape, zero mean and standard deviation equal to that parameter's
sample standard deviation, drawn in parameter order from a single pass over
the stream; later steps only scale and add the same fixed tensors. -/
theorem claim_C7 (gen : ℕ → ℝ) (m : Model) (ct : ℕ)
    (hct : ct < m.params.length) :
    (noise_arrs gen m).length = m.params.length ∧
    (noise_arrs gen m).getD ct dTensor =
      torch_normal gen (((m.params.take ct).map numel).sum) 0
        (torch_std (m.params.getD ct dTensor).data)
        (m.params.getD ct dTensor).shape ∧
    ((noise_arrs gen m).getD ct dTensor).shape =
      (m.params.getD ct dTensor).shape ∧
    (∀ i, paramsAfter gen m (i + 1) =
      addScaled (paramsAfter gen m i) (add_fac (i + 1)) (noise_arrs gen m)) := by
  refine ⟨noise_arrs_length gen m, noise_arrs_getD gen m ct hct, ?_,
    fun i => rfl⟩
  rw [noise_arrs_getD gen m ct hct]
  rfl

/-- Witness for claim C7 on the example model's only parameter. -/
theorem claim_C7_witness :
    0 < Mex.params.length ∧
    (noise_arrs gex Mex).length = Mex.params.length :=
  ⟨by simp [Mex], (claim_C7 gex Mex 0 (by simp [Mex])).1⟩

/-- Counterexample to claim C8: at seed 42 and model name model.pth, the first
saved file does not embed the factor value 5.0e-05; the literal first factor
is 10^-4.3 = 5.0118...e-05. -/
theorem claim_C8_counterexample :
    ((run tgex 42 "model.pth" Mex mdex).2.getD 0 dSnapshot).fname ≠
      ⟨(5.0e-5 : ℝ), 0⟩ := by
  have h0 : ((run tgex 42 "model.pth" Mex mdex).2.getD 0 dSnapshot).fname =
      ⟨corrpution_facs 0, 0⟩ := by
    simp only [run]
    rw [getD_map_range _ _ _ _ (by norm_num)]
    rfl
  rw [h0]
  intro hEq
  have hf : corrpution_facs 0 = (5.0e-5 : ℝ) := congrArg FileName.factor hEq
  rw [corrpution_facs_zero] at hf
  have h10 : ((10 : ℝ) ^ (-4.3 : ℝ)) ^ (10 : ℕ) =
      ((5.0e-5 : ℝ)) ^ (10 : ℕ) := by
    rw [hf]
  rw [← Real.rpow_natCast ((10 : ℝ) ^ (-4.3 : ℝ)) 10,
    ← Real.rpow_mul (by norm_num)] at h10
  norm_num at h10

/-- Amended claim C8: at seed 42 and model name model.pth the run writes the
directory model_corrupted_SEED_42 with 12 files corruptfac_f_i for i = 0..11,
where f is the exact logspace value at step i, so the first embedded factor is
10^-4.3 (approximately 5.012e-05, not 5.0e-05) and the last is 10^-0.3
(approximately 0.5012, not 0.501). -/
theorem claim_C8_amended (torchGen : ℤ → ℕ → ℝ) (m : Model) (md : Metadata) :
    (run torchGen 42 "model.pth" m md).1 = "model_corrupted_SEED_42" ∧
    (∀ i, i < 12 →
      ((run torchGen 42 "model.pth" m md).2.getD i dSnapshot).fname =
        ⟨corrpution_facs i, i⟩) ∧
    corrpution_facs 0 = (10 : ℝ) ^ (-4.3 : ℝ) ∧
    corrpution_facs 11 = (10 : ℝ) ^ (-0.3 : ℝ) := by
  refine ⟨?_, ?_, corrpution_facs_zero, corrpution_facs_eleven⟩
  · show corrupted_model_dir "model.pth" 42 = "model_corrupted_SEED_42"
    decide
  intro i hi
  simp only [run]
  rw [getD_map_range _ _ _ _ hi]
  rfl

/-- Witness for the amended claim C8 at the last file index. -/
theorem claim_C8_amended_witness :
    ((run tgex 42 "model.pth" Mex mdex).2.getD 11 dSnapshot).fname =
      ⟨corrpution_facs 11, 11⟩ :=
  (claim_C8_amended tgex Mex mdex).2.1 11 (by norm_num)

/-- Claim C9: at every loop iteration i of a complete run, the file about to
be written is not among the directory contents at that point, so the
delete-before-write branch never fires and the save is a plain append. -/
theorem claim_C9 (i : ℕ) (_hi : i < 12) :
    cfac_file i ∉ dirAfter i ∧
    saveStep (dirAfter i) i = dirAfter i ++ [cfac_file i] := by
  have hnot : cfac_file i ∉ dirAfter i := by
    rw [dirAfter_eq]
    intro hmem
    rcases List.mem_map.mp hmem with ⟨j, hj, hEq⟩
    have hji : j = i := congrArg FileName.idx hEq
    have : j < i := List.mem_range.mp hj
    omega
  refine ⟨hnot, ?_⟩
  simp only [saveStep, if_neg hnot]

/-- Witness for claim C9 at iteration 7. -/
theorem claim_C9_witness :
    cfac_file 7 ∉ dirAfter 7 ∧
    saveStep (dirAfter 7) 7 = dirAfter 7 ++ [cfac_file 7] :=
  claim_C9 7 (by norm_num)

/-- Claim C10: a parameter whose entries are all equal (and number more than
one) gets an identically zero noise tensor, so its buffer is unchanged from
the original at every one of the 12 steps. -/
theorem claim_C10 (gen : ℕ → ℝ) (m : Model) (hwf : Model.WF m) (ct : ℕ)
    (hct : ct < m.params.length) (c : ℝ)
    (hconst : ∀ x ∈ (m.params.getD ct dTensor).data, x = c)
    (hlen : 1 < (m.params.getD ct dTensor).data.length)
    (i : ℕ) (_hi : i ≤ 11) :
    ((noise_arrs gen m).getD ct dTensor).data =
      List.replicate (m.params.getD ct dTensor).shape.prod 0 ∧
    ((paramsAfter gen m i).getD ct dTensor).data =
      (m.params.getD ct dTensor).data := by
  have htmem : m.params.getD ct dTensor ∈ m.params := by
    rw [List.getD_eq_getElem _ _ hct]
    exact List.getElem_mem _
  have hwft : (m.params.getD ct dTensor).data.length =
      (m.params.getD ct dTensor).shape.prod :=
    hwf _ htmem
  have hrep : (m.params.getD ct dTensor).data =
      List.replicate (m.params.getD ct dTensor).data.length c :=
    List.eq_replicate_iff.mpr ⟨rfl, hconst⟩
  have hn0 : (m.params.getD ct dTensor).data.length ≠ 0 := by omega
  have hstd : torch_std (m.params.getD ct dTensor).data = 0 := by
    conv_lhs => rw [hrep]
    exact torch_std_const _ c hn0
  have hnoise : (noise_arrs gen m).getD ct dTensor =
      ⟨(m.params.getD ct dTensor).shape,
        List.replicate (m.params.getD ct dTensor).shape.prod 0⟩ := by
    rw [noise_arrs_getD gen m ct hct, hstd, torch_normal_zero_std]
  refine ⟨by rw [hnoise], ?_⟩
  rw [paramsAfter_facs]
  unfold addScaled
  rw [getD_zipWith _ _ _ _ dTensor dTensor dTensor hct
    (by rw [noise_arrs_length]; exact hct)]
  rw [hnoise]
  show List.zipWith _ (m.params.getD ct dTensor).data
    (List.replicate (m.params.getD ct dTensor).shape.prod 0) =
    (m.params.getD ct dTensor).data
  exact zipWith_noise_zero _ _ _ (le_of_eq hwft)

/-- Witness for claim C10 on a constant two-element parameter at step 4. -/
theorem claim_C10_witness :
    ((paramsAfter gex Mc 4).getD 0 dTensor).data =
      (Mc.params.getD 0 dTensor).data :=
  (claim_C10 gex Mc
    (by
      intro t ht
      simp only [Mc] at ht
      rw [List.mem_singleton] at ht
      subst ht
      rfl)
    0 (by simp [Mc]) 5
    (by
      intro x hx
      have hdata : (Mc.params.getD 0 dTensor).data = [(5 : ℝ), 5] := rfl
      rw [hdata] at hx
      simp only [List.mem_cons, List.not_mem_nil, or_false] at hx
      rcases hx with h | h <;> exact h)
    (by
      have hdata : (Mc.params.getD 0 dTensor).data.length = 2 := rfl
      omega)
    4 (by norm_num)).2

end CorruptModels
